import Mathlib

/-!
Verification of the AU-file player's audio pipeline (`code.py`).

The development shallowly embeds `load_au_file` (header validation, µ-law
lookup-table construction, chunked payload decoding) and the playback loop of
`run` as executable Lean definitions over lists of natural-number bytes, and
proves the specification's claims about them.
-/

set_option maxRecDepth 4096

deriving instance DecidableEq for Except

namespace AuPlayer

/-- µ-law expansion of one byte, the body of the table-building loop in
`load_au_file` (code.py lines 109–115).  For a natural number `i`, Python's
`(~i) & 0xFF` equals `255 - i % 256`, which is used here verbatim. -/
def muLaw (i : Nat) : Int :=
  let u : Nat := 255 - i % 256
  let sign : Nat := u &&& 0x80
  let exp : Nat := (u >>> 4) &&& 0x07
  let mant : Nat := u &&& 0x0F
  let sNat : Nat := ((mant <<< 3) + 0x84) <<< exp
  let s : Int := (sNat : Int) - 0x84
  if sign ≠ 0 then -s else s

/-- The 256-entry lookup table `lut` built by `load_au_file`
(code.py lines 107–115): entry `i` holds `muLaw i`. -/
def muLawTable : List Int := (List.range 256).map muLaw

/-- Modelled from the spec (§4.2 and claim C1): the canonical G.711 µ-law
expansion, written from the claim's own words — `u = (~i) & 0xFF`,
`sign = u & 0x80`, `exponent = (u >> 4) & 0x07`, `mantissa = u & 0x0F`,
`s = (((mantissa << 3) + 0x84) << exponent) - 0x84`, result `-s` when the
sign bit is set and `s` otherwise. -/
def g711Expansion (i : Nat) : Int :=
  let u : Nat := 255 - i % 256
  let sign : Nat := u &&& 0x80
  let exponent : Nat := (u >>> 4) &&& 0x07
  let mantissa : Nat := u &&& 0x0F
  let s : Int := ((((mantissa <<< 3) + 0x84) <<< exponent : Nat) : Int) - 0x84
  if sign ≠ 0 then -s else s

/-- Parsed AU container header, the six big-endian 32-bit fields unpacked by
`struct.unpack(">6I", header)` in `load_au_file` (code.py line 87). -/
structure ContainerHeader where
  magic : Nat
  offset : Nat
  size : Nat
  encoding : Nat
  rate : Nat
  channels : Nat
deriving Repr, DecidableEq

/-- Error kinds raised by `load_au_file`, keyed by the exact `ValueError`
message in the source and grouped into the spec's error taxonomy (§7). -/
inductive AuError where
  | formatError (msg : String)
  | unsupportedEncodingError (msg : String)
  | unsupportedFormatError (msg : String)
  | truncatedDataError (msg : String)
deriving Repr, DecidableEq

/-- Big-endian 32-bit read at byte offset `off`, as done by
`struct.unpack(">6I", ...)` field-by-field. -/
def readU32BE (bytes : List Nat) (off : Nat) : Nat :=
  bytes.getD off 0 * 0x1000000 + bytes.getD (off + 1) 0 * 0x10000 +
    bytes.getD (off + 2) 0 * 0x100 + bytes.getD (off + 3) 0

/-- Header read and validation of `load_au_file` (code.py lines 82–96):
`f.read(24)` on a file modelled as a byte list returns its first 24 bytes. -/
def parseHeader (file : List Nat) : Except AuError ContainerHeader :=
  let header := file.take 24
  if header.length ≠ 24 then
    Except.error (AuError.formatError "file is not a valid AU file")
  else
    let magic := readU32BE header 0
    let offset := readU32BE header 4
    let size := readU32BE header 8
    let encoding := readU32BE header 12
    let rate := readU32BE header 16
    let channels := readU32BE header 20
    if magic ≠ 0x2e736e64 then
      Except.error (AuError.formatError "Not an AU file (magic bytes are wrong)")
    else if encoding ≠ 1 then
      Except.error (AuError.unsupportedEncodingError "AU file sample encoding is not u-law")
    else if rate ≠ 8000 ∨ channels ≠ 1 then
      Except.error (AuError.unsupportedFormatError "AU file is not 8000 Hz mono")
    else if size = 0xffffffff then
      Except.error (AuError.unsupportedFormatError "AU file with header.size=-1 is not supported")
    else
      Except.ok ⟨magic, offset, size, encoding, rate, channels⟩

/-- Outcome of the chunked decode loop of `load_au_file` (code.py lines
124–132).  `ok` carries the finished PCM sample list; `truncated` models the
`ValueError("Truncated AU file data")` raise and carries the samples written
before the failing read; both carry the trace of `f.read` calls as pairs
`(bytes consumed so far, bytes requested)`.  `outOfFuel` is an artefact of the
fuel-based recursion and is proved unreachable when fuel ≥ size. -/
inductive DecodeResult where
  | ok (pcm : List Int) (reads : List (Nat × Nat))
  | truncated (pcmSoFar : List Int) (reads : List (Nat × Nat))
  | outOfFuel
deriving Repr, DecidableEq

/-- Read-request trace of a decode outcome. -/
def DecodeResult.requests : DecodeResult → List (Nat × Nat)
  | DecodeResult.ok _ r => r
  | DecodeResult.truncated _ r => r
  | DecodeResult.outOfFuel => []

/-- The `while i < size` decode loop of `load_au_file` (code.py lines
124–132).  Each iteration requests `min 1024 (size - i)` bytes; a short file
makes `f.read` return only the bytes available, modelled by
`(payload.drop i).take req`; a zero-byte read raises the truncation error;
otherwise each byte is looked up in the table and appended to the PCM buffer.
`fuel` bounds the iteration count; every successful read consumes at least one
byte, so `fuel = size` always suffices. -/
def decodeLoop (lut : Nat → Int) (payload : List Nat) (size : Nat) :
    Nat → Nat → List Int → List (Nat × Nat) → DecodeResult
  | fuel, i, pcm, reads =>
    if i < size then
      match fuel with
      | 0 => DecodeResult.outOfFuel
      | Nat.succ fuel =>
          let req := min 1024 (size - i)
          let chunk := (payload.drop i).take req
          if chunk.length = 0 then
            DecodeResult.truncated pcm (reads ++ [(i, req)])
          else
            decodeLoop lut payload size fuel (i + chunk.length)
              (pcm ++ chunk.map lut) (reads ++ [(i, req)])
    else DecodeResult.ok pcm reads

/-- Full `load_au_file` (code.py lines 79–136) on a file modelled as a byte
list: parse and validate the header, seek to `offset` (drop the first `offset`
bytes), then run the chunked decode loop.  Fuel exhaustion is mapped to the
same error as truncation but proved unreachable (`decodeLoop_no_fuel_exhaustion`). -/
def loadAuFile (file : List Nat) : Except AuError (List Int) :=
  match parseHeader file with
  | Except.error e => Except.error e
  | Except.ok h =>
      match decodeLoop muLaw (file.drop h.offset) h.size h.size 0 [] [] with
      | DecodeResult.ok pcm _ => Except.ok pcm
      | DecodeResult.truncated _ _ =>
          Except.error (AuError.truncatedDataError "Truncated AU file data")
      | DecodeResult.outOfFuel =>
          Except.error (AuError.truncatedDataError "Truncated AU file data")

/-- Read-request trace of a full decode run over a given payload and size. -/
def decodeReads (payload : List Nat) (size : Nat) : List (Nat × Nat) :=
  (decodeLoop muLaw payload size size 0 [] []).requests

/-- C1: for every index i in 0..255, the decode table entry `table[i]` equals
the canonical G.711 µ-law expansion computed from `u = (~i) & 0xFF` by
`s = (((mantissa << 3) + 0x84) << exponent) - 0x84`, negated when the sign
bit of `u` is set. -/
theorem c1_table_matches_g711 : ∀ i : Fin 256, muLawTable.getD i.val 0 = g711Expansion i.val := by
  decide

/-- C8: every entry of the decode table lies in -32124..32124, so the entries
(and hence every decoded PCM sample, each of which is a table entry) fit in a
signed 16-bit value without overflow.  This holds for `muLaw` at every natural
number, covering every possible lookup. -/
theorem c8_table_range : ∀ i : Nat, -32124 ≤ muLaw i ∧ muLaw i ≤ 32124 := by
  intro i
  have hmod : muLaw i = muLaw (i % 256) := by
    unfold muLaw
    have h256 : i % 256 % 256 = i % 256 := by omega
    rw [h256]
  have hball : ∀ j, j < 256 → -32124 ≤ muLaw j ∧ muLaw j ≤ 32124 := by decide
  rw [hmod]
  exact hball (i % 256) (Nat.mod_lt i (by norm_num))

/-- Splitting a `take` at an intermediate point. -/
lemma take_split {α : Type} (l : List α) (L n : Nat) (h : L ≤ n) :
    l.take n = l.take L ++ (l.drop L).take (n - L) := by
  conv_lhs => rw [show n = L + (n - L) by omega]
  rw [List.take_add]

/-- When the payload holds at least `size` bytes the decode loop finishes,
appending exactly the table image of the next `size - i` payload bytes. -/
lemma decodeLoop_ok_of_enough (lut : Nat → Int) (payload : List Nat) (size : Nat) :
    ∀ fuel i pcm reads, size ≤ payload.length → i ≤ size → size - i ≤ fuel →
      ∃ t, decodeLoop lut payload size fuel i pcm reads =
        DecodeResult.ok (pcm ++ ((payload.drop i).take (size - i)).map lut) (reads ++ t) := by
  intro fuel
  induction fuel with
  | zero =>
      intro i pcm reads hlen hi hfuel
      have hie : i = size := by omega
      subst hie
      refine ⟨[], ?_⟩
      simp [decodeLoop]
  | succ f ih =>
      intro i pcm reads hlen hi hfuel
      by_cases hlt : i < size
      · have hreq1 : 1 ≤ min 1024 (size - i) := by omega
        have hreqle : min 1024 (size - i) ≤ size - i := by omega
        have hchlen : ((payload.drop i).take (min 1024 (size - i))).length
            = min 1024 (size - i) := by
          rw [List.length_take, List.length_drop]
          omega
        have hchne : ¬ ((payload.drop i).take (min 1024 (size - i))).length = 0 := by
          omega
        obtain ⟨t, ht⟩ := ih (i + ((payload.drop i).take (min 1024 (size - i))).length)
          (pcm ++ ((payload.drop i).take (min 1024 (size - i))).map lut)
          (reads ++ [(i, min 1024 (size - i))])
          hlen (by omega) (by omega)
        refine ⟨(i, min 1024 (size - i)) :: t, ?_⟩
        rw [decodeLoop]
        simp only [if_pos hlt]
        rw [if_neg hchne, ht, hchlen]
        have hsplit : (payload.drop i).take (size - i)
            = (payload.drop i).take (min 1024 (size - i))
              ++ ((payload.drop i).drop (min 1024 (size - i))).take
                  (size - i - min 1024 (size - i)) := take_split _ _ _ hreqle
        rw [List.drop_drop, Nat.sub_sub] at hsplit
        rw [hsplit, List.map_append]
        simp [List.append_assoc]
      · have hie : i = size := by omega
        subst hie
        refine ⟨[], ?_⟩
        simp [decodeLoop]

/-- A `take` followed by dropping exactly the taken length restores the list. -/
lemma take_append_drop_len {α : Type} (l : List α) (n : Nat) :
    l.take n ++ l.drop (l.take n).length = l := by
  rw [List.length_take]
  conv_lhs =>
    rw [show l.take n = l.take (min n l.length) by rw [List.take_eq_take]; omega]
  exact List.take_append_drop _ _

/-- When the payload is shorter than `size` the decode loop decodes every
remaining byte, then raises the truncation error on the zero-byte read issued
once `payload.length` bytes have been consumed. -/
lemma decodeLoop_truncated_of_short (lut : Nat → Int) (payload : List Nat) (size : Nat) :
    ∀ fuel i pcm reads, payload.length < size → i ≤ payload.length → size - i ≤ fuel →
      ∃ t, decodeLoop lut payload size fuel i pcm reads =
        DecodeResult.truncated (pcm ++ ((payload.drop i)).map lut)
          (reads ++ t ++ [(payload.length, min 1024 (size - payload.length))]) := by
  intro fuel
  induction fuel with
  | zero =>
      intro i pcm reads hlen hi hfuel
      omega
  | succ f ih =>
      intro i pcm reads hlen hi hfuel
      have hlt : i < size := by omega
      by_cases hend : i = payload.length
      · subst hend
        refine ⟨[], ?_⟩
        rw [decodeLoop]
        simp only [if_pos hlt]
        rw [List.drop_length]
        simp
      · have hilt : i < payload.length := by omega
        have hchlen : ((payload.drop i).take (min 1024 (size - i))).length
            = min (min 1024 (size - i)) (payload.length - i) := by
          rw [List.length_take, List.length_drop]
        have hchne : ¬ ((payload.drop i).take (min 1024 (size - i))).length = 0 := by
          omega
        obtain ⟨t, ht⟩ := ih (i + ((payload.drop i).take (min 1024 (size - i))).length)
          (pcm ++ ((payload.drop i).take (min 1024 (size - i))).map lut)
          (reads ++ [(i, min 1024 (size - i))])
          hlen (by omega) (by omega)
        refine ⟨(i, min 1024 (size - i)) :: t, ?_⟩
        rw [decodeLoop]
        simp only [if_pos hlt]
        rw [if_neg hchne, ht]
        have hdd : payload.drop (i + ((payload.drop i).take (min 1024 (size - i))).length)
            = (payload.drop i).drop ((payload.drop i).take (min 1024 (size - i))).length :=
          (List.drop_drop _ _ _).symm
        rw [hdd, List.append_assoc, ← List.map_append, take_append_drop_len]
        simp [List.append_assoc]

/-- Every read request recorded by the decode loop asks for exactly
`min 1024 (size - consumed)` bytes, which is between 1 and 1024. -/
lemma decodeLoop_reads_inv (lut : Nat → Int) (payload : List Nat) (size : Nat) :
    ∀ fuel i pcm reads,
      (∀ p ∈ reads, 1 ≤ p.2 ∧ p.2 ≤ 1024 ∧ p.2 = min 1024 (size - p.1)) →
      ∀ p ∈ (decodeLoop lut payload size fuel i pcm reads).requests,
        1 ≤ p.2 ∧ p.2 ≤ 1024 ∧ p.2 = min 1024 (size - p.1) := by
  intro fuel
  induction fuel with
  | zero =>
      intro i pcm reads hreads p hp
      rw [decodeLoop] at hp
      by_cases hlt : i < size
      · rw [if_pos hlt] at hp
        simp only [DecodeResult.requests, List.not_mem_nil] at hp
      · rw [if_neg hlt] at hp
        exact hreads p hp
  | succ f ih =>
      intro i pcm reads hreads p hp
      rw [decodeLoop] at hp
      by_cases hlt : i < size
      · rw [if_pos hlt] at hp
        by_cases hch : ((payload.drop i).take (min 1024 (size - i))).length = 0
        · rw [if_pos hch] at hp
          simp only [DecodeResult.requests] at hp
          rcases List.mem_append.mp hp with h | h
          · exact hreads p h
          · have hpe : p = (i, min 1024 (size - i)) := by simpa using h
            subst hpe
            refine ⟨by simp <;> omega, by simp <;> omega, by simp⟩
        · rw [if_neg hch] at hp
          refine ih _ _ _ ?_ p hp
          intro q hq
          rcases List.mem_append.mp hq with h | h
          · exact hreads q h
          · have hqe : q = (i, min 1024 (size - i)) := by simpa using h
            subst hqe
            refine ⟨by simp <;> omega, by simp <;> omega, by simp⟩
      · rw [if_neg hlt] at hp
        exact hreads p hp

/-- A successful decode run produces exactly `size - i` further samples. -/
lemma decodeLoop_ok_length (lut : Nat → Int) (payload : List Nat) (size : Nat) :
    ∀ fuel i pcm reads pcmf readsf,
      decodeLoop lut payload size fuel i pcm reads = DecodeResult.ok pcmf readsf →
      i ≤ size → pcmf.length = pcm.length + (size - i) := by
  intro fuel
  induction fuel with
  | zero =>
      intro i pcm reads pcmf readsf heq hi
      rw [decodeLoop] at heq
      by_cases hlt : i < size
      · rw [if_pos hlt] at heq
        exact absurd heq (by simp)
      · rw [if_neg hlt] at heq
        cases heq
        omega
  | succ f ih =>
      intro i pcm reads pcmf readsf heq hi
      rw [decodeLoop] at heq
      by_cases hlt : i < size
      · rw [if_pos hlt] at heq
        by_cases hch : ((payload.drop i).take (min 1024 (size - i))).length = 0
        · rw [if_pos hch] at heq
          exact absurd heq (by simp)
        · rw [if_neg hch] at heq
          have hchle : ((payload.drop i).take (min 1024 (size - i))).length ≤ size - i := by
            rw [List.length_take]
            omega
          have hrec := ih _ _ _ _ _ heq (by omega)
          rw [List.length_append, List.length_map] at hrec
          omega
      · rw [if_neg hlt] at heq
        cases heq
        omega

/-- C3: header parsing fails exactly on the specified conditions with the
specified error kind — a short header or wrong magic is a format error, a
non-µ-law encoding an unsupported-encoding error, a wrong rate/channel count
or the 0xFFFFFFFF size sentinel an unsupported-format error — and every
header passing all five checks parses successfully. -/
theorem c3_header_validation (file : List Nat) :
    (file.length < 24 →
      parseHeader file = Except.error (AuError.formatError "file is not a valid AU file")) ∧
    (24 ≤ file.length → readU32BE (file.take 24) 0 ≠ 0x2e736e64 →
      parseHeader file = Except.error (AuError.formatError "Not an AU file (magic bytes are wrong)")) ∧
    (24 ≤ file.length → readU32BE (file.take 24) 0 = 0x2e736e64 →
      readU32BE (file.take 24) 12 ≠ 1 →
      parseHeader file
        = Except.error (AuError.unsupportedEncodingError "AU file sample encoding is not u-law")) ∧
    (24 ≤ file.length → readU32BE (file.take 24) 0 = 0x2e736e64 →
      readU32BE (file.take 24) 12 = 1 →
      (readU32BE (file.take 24) 16 ≠ 8000 ∨ readU32BE (file.take 24) 20 ≠ 1) →
      parseHeader file
        = Except.error (AuError.unsupportedFormatError "AU file is not 8000 Hz mono")) ∧
    (24 ≤ file.length → readU32BE (file.take 24) 0 = 0x2e736e64 →
      readU32BE (file.take 24) 12 = 1 →
      readU32BE (file.take 24) 16 = 8000 → readU32BE (file.take 24) 20 = 1 →
      readU32BE (file.take 24) 8 = 0xffffffff →
      parseHeader file
        = Except.error
            (AuError.unsupportedFormatError "AU file with header.size=-1 is not supported")) ∧
    (24 ≤ file.length → readU32BE (file.take 24) 0 = 0x2e736e64 →
      readU32BE (file.take 24) 12 = 1 →
      readU32BE (file.take 24) 16 = 8000 → readU32BE (file.take 24) 20 = 1 →
      readU32BE (file.take 24) 8 ≠ 0xffffffff →
      parseHeader file
        = Except.ok ⟨readU32BE (file.take 24) 0, readU32BE (file.take 24) 4,
            readU32BE (file.take 24) 8, readU32BE (file.take 24) 12,
            readU32BE (file.take 24) 16, readU32BE (file.take 24) 20⟩) := by
  refine ⟨?_, ?_, ?_, ?_, ?_, ?_⟩
  · intro h
    simp only [parseHeader]
    rw [if_pos (show (file.take 24).length ≠ 24 by rw [List.length_take]; omega)]
  · intro hl hm
    simp only [parseHeader]
    rw [if_neg (show ¬ (file.take 24).length ≠ 24 by rw [List.length_take]; omega),
      if_pos hm]
  · intro hl hm he
    simp only [parseHeader]
    rw [if_neg (show ¬ (file.take 24).length ≠ 24 by rw [List.length_take]; omega),
      if_neg (not_not_intro hm), if_pos he]
  · intro hl hm he hr
    simp only [parseHeader]
    rw [if_neg (show ¬ (file.take 24).length ≠ 24 by rw [List.length_take]; omega),
      if_neg (not_not_intro hm), if_neg (not_not_intro he), if_pos hr]
  · intro hl hm he hr hc hs
    simp only [parseHeader]
    rw [if_neg (show ¬ (file.take 24).length ≠ 24 by rw [List.length_take]; omega),
      if_neg (not_not_intro hm), if_neg (not_not_intro he),
      if_neg (show ¬ (readU32BE (file.take 24) 16 ≠ 8000 ∨ readU32BE (file.take 24) 20 ≠ 1) by
        push_neg
        exact ⟨hr, hc⟩),
      if_pos hs]
  · intro hl hm he hr hc hs
    simp only [parseHeader]
    rw [if_neg (show ¬ (file.take 24).length ≠ 24 by rw [List.length_take]; omega),
      if_neg (not_not_intro hm), if_neg (not_not_intro he),
      if_neg (show ¬ (readU32BE (file.take 24) 16 ≠ 8000 ∨ readU32BE (file.take 24) 20 ≠ 1) by
        push_neg
        exact ⟨hr, hc⟩),
      if_neg hs]

/-- Witness for C3: each validation branch exercised on a concrete header —
too short, zero magic, encoding 2, rate 44100, the 0xFFFFFFFF sentinel, and a
fully valid header. -/
theorem c3_header_validation_witness :
    parseHeader (List.replicate 23 0)
      = Except.error (AuError.formatError "file is not a valid AU file") ∧
    parseHeader (List.replicate 24 0)
      = Except.error (AuError.formatError "Not an AU file (magic bytes are wrong)") ∧
    parseHeader [0x2e, 0x73, 0x6e, 0x64, 0, 0, 0, 24, 0, 0, 0, 4, 0, 0, 0, 2,
        0, 0, 0x1f, 0x40, 0, 0, 0, 1]
      = Except.error (AuError.unsupportedEncodingError "AU file sample encoding is not u-law") ∧
    parseHeader [0x2e, 0x73, 0x6e, 0x64, 0, 0, 0, 24, 0, 0, 0, 4, 0, 0, 0, 1,
        0, 0, 0xac, 0x44, 0, 0, 0, 1]
      = Except.error (AuError.unsupportedFormatError "AU file is not 8000 Hz mono") ∧
    parseHeader [0x2e, 0x73, 0x6e, 0x64, 0, 0, 0, 24, 0xff, 0xff, 0xff, 0xff, 0, 0, 0, 1,
        0, 0, 0x1f, 0x40, 0, 0, 0, 1]
      = Except.error
          (AuError.unsupportedFormatError "AU file with header.size=-1 is not supported") ∧
    parseHeader [0x2e, 0x73, 0x6e, 0x64, 0, 0, 0, 24, 0, 0, 0, 4, 0, 0, 0, 1,
        0, 0, 0x1f, 0x40, 0, 0, 0, 1]
      = Except.ok ⟨0x2e736e64, 24, 4, 1, 8000, 1⟩ :=
  ⟨(c3_header_validation _).1 (by simp),
   (c3_header_validation _).2.1 (by simp) (by decide),
   (c3_header_validation _).2.2.1 (by simp) (by decide) (by decide),
   (c3_header_validation _).2.2.2.1 (by simp) (by decide) (by decide) (by decide),
   (c3_header_validation _).2.2.2.2.1 (by simp) (by decide) (by decide) (by decide) (by decide)
     (by decide),
   (c3_header_validation _).2.2.2.2.2 (by simp) (by decide) (by decide) (by decide) (by decide)
     (by decide)⟩

/-- A successfully parsed header implies the file held all 24 header bytes. -/
lemma parseHeader_ok_length (file : List Nat) (hdr : ContainerHeader)
    (h : parseHeader file = Except.ok hdr) : 24 ≤ file.length := by
  by_contra hlt
  simp only [parseHeader] at h
  rw [if_pos (show (file.take 24).length ≠ 24 by rw [List.length_take]; omega)] at h
  exact absurd h (by simp)

/-- The concrete test file of the spec's scenario (§8): a valid header with
`offset = 24`, `size = 4` followed by the payload `[0xFF, 0x7F, 0x00, 0x80]`. -/
def demoFile : List Nat :=
  [0x2e, 0x73, 0x6e, 0x64, 0, 0, 0, 24, 0, 0, 0, 4, 0, 0, 0, 1,
   0, 0, 0x1f, 0x40, 0, 0, 0, 1, 0xFF, 0x7F, 0x00, 0x80]

/-- The header parsed from `demoFile`. -/
def demoHeader : ContainerHeader := ⟨0x2e736e64, 24, 4, 1, 8000, 1⟩

/-- C2: for every valid header with `dataSize = N` over a payload of at least
`N` bytes after `dataOffset`, decoding returns exactly `N` samples and the
k-th sample is the table image of the k-th payload byte; in particular the
scenario payload `[0xFF, 0x7F, 0x00, 0x80]` decodes to
`[table 0xFF, table 0x7F, table 0x00, table 0x80]`. -/
theorem c2_streaming_decode (file : List Nat) (hdr : ContainerHeader)
    (hparse : parseHeader file = Except.ok hdr)
    (hlen : hdr.offset + hdr.size ≤ file.length) :
    (∃ pcm, loadAuFile file = Except.ok pcm ∧ pcm.length = hdr.size ∧
      ∀ k, k < hdr.size → pcm.getD k 0 = muLaw (file.getD (hdr.offset + k) 0)) ∧
    loadAuFile demoFile = Except.ok [muLaw 0xFF, muLaw 0x7F, muLaw 0x00, muLaw 0x80] := by
  constructor
  · obtain ⟨t, ht⟩ := decodeLoop_ok_of_enough muLaw (file.drop hdr.offset) hdr.size
      hdr.size 0 [] [] (by rw [List.length_drop]; omega) (Nat.zero_le _) (by omega)
    rw [List.drop_zero, Nat.sub_zero, List.nil_append, List.nil_append] at ht
    refine ⟨((file.drop hdr.offset).take hdr.size).map muLaw, ?_, ?_, ?_⟩
    · simp only [loadAuFile, hparse, ht]
    · rw [List.length_map, List.length_take, List.length_drop]
      omega
    · intro k hk
      have hklen : k < (((file.drop hdr.offset).take hdr.size).map muLaw).length := by
        rw [List.length_map, List.length_take, List.length_drop]
        omega
      have hfk : hdr.offset + k < file.length := by omega
      rw [List.getD_eq_getElem _ _ hklen, List.getD_eq_getElem _ _ hfk, List.getElem_map,
        List.getElem_take, List.getElem_drop]
  · decide

/-- Witness for C2: the theorem applied to the spec's concrete scenario file. -/
theorem c2_streaming_decode_witness :
    (∃ pcm, loadAuFile demoFile = Except.ok pcm ∧ pcm.length = demoHeader.size ∧
      ∀ k, k < demoHeader.size →
        pcm.getD k 0 = muLaw (demoFile.getD (demoHeader.offset + k) 0)) ∧
    loadAuFile demoFile = Except.ok [muLaw 0xFF, muLaw 0x7F, muLaw 0x00, muLaw 0x80] :=
  c2_streaming_decode demoFile demoHeader (by decide) (by decide)

/-- C4: decoding fails with the truncation error exactly when the available
payload is shorter than the declared `dataSize` (i.e. a read returns zero
bytes before `dataSize` samples exist); and for a declared size of 2048 over
a 1000-byte payload the failure happens exactly after all 1000 bytes have
been consumed and looked up — the partial PCM equals the full table image of
the payload, and the failing zero-byte read is the one issued at consumed
count 1000. -/
theorem c4_truncation (file payload : List Nat) (hdr : ContainerHeader)
    (hparse : parseHeader file = Except.ok hdr) (hplen : payload.length = 1000) :
    (loadAuFile file = Except.error (AuError.truncatedDataError "Truncated AU file data")
      ↔ file.length - hdr.offset < hdr.size) ∧
    (∃ t, decodeLoop muLaw payload 2048 2048 0 [] [] =
      DecodeResult.truncated (payload.map muLaw) (t ++ [(1000, 1024)])) := by
  constructor
  · by_cases hshort : file.length - hdr.offset < hdr.size
    · obtain ⟨t, ht⟩ := decodeLoop_truncated_of_short muLaw (file.drop hdr.offset) hdr.size
        hdr.size 0 [] [] (by rw [List.length_drop]; omega) (Nat.zero_le _) (by omega)
      refine ⟨fun _ => hshort, fun _ => ?_⟩
      simp only [loadAuFile, hparse, ht]
    · obtain ⟨t, ht⟩ := decodeLoop_ok_of_enough muLaw (file.drop hdr.offset) hdr.size
        hdr.size 0 [] [] (by rw [List.length_drop]; omega) (Nat.zero_le _) (by omega)
      refine ⟨fun herr => absurd herr ?_, fun hk => absurd hk hshort⟩
      simp only [loadAuFile, hparse, ht]
      simp
  · obtain ⟨t, ht⟩ := decodeLoop_truncated_of_short muLaw payload 2048
      2048 0 [] [] (by omega) (Nat.zero_le _) (by omega)
    rw [List.drop_zero, List.nil_append, List.nil_append, hplen] at ht
    exact ⟨t, by simpa using ht⟩

/-- The concrete truncated test file: a valid header declaring `size = 2048`
but followed by only 1000 payload bytes. -/
def truncFile : List Nat :=
  [0x2e, 0x73, 0x6e, 0x64, 0, 0, 0, 24, 0, 0, 0x08, 0x00, 0, 0, 0, 1,
   0, 0, 0x1f, 0x40, 0, 0, 0, 1] ++ List.replicate 1000 7

/-- The header parsed from `truncFile`. -/
def truncHeader : ContainerHeader := ⟨0x2e736e64, 24, 2048, 1, 8000, 1⟩

/-- Witness for C4: the theorem applied to the concrete truncated file. -/
theorem c4_truncation_witness :
    loadAuFile truncFile = Except.error (AuError.truncatedDataError "Truncated AU file data") ∧
    (∃ t, decodeLoop muLaw (List.replicate 1000 7) 2048 2048 0 [] [] =
      DecodeResult.truncated ((List.replicate 1000 7).map muLaw) (t ++ [(1000, 1024)])) :=
  ⟨(c4_truncation truncFile (List.replicate 1000 7) truncHeader (by decide)
      (by simp [List.length_replicate])).1.mpr
      (by simp [truncFile, truncHeader, List.length_replicate]),
   (c4_truncation truncFile (List.replicate 1000 7) truncHeader (by decide)
      (by simp [List.length_replicate])).2⟩

/-- A header parse is unchanged by appending bytes past the first 24. -/
lemma parseHeader_append (file extra : List Nat) (h : 24 ≤ file.length) :
    parseHeader (file ++ extra) = parseHeader file := by
  simp only [parseHeader, List.take_append_of_le_length h]

/-- C9: the decoder never requests bytes beyond the declared payload — every
read request is for `min 1024 (dataSize - consumed)` bytes, a successful run
consumes (and emits) exactly `dataSize` samples, and bytes at or past
`dataOffset + dataSize` have no effect on the result. -/
theorem c9_payload_frame :
    (∀ (payload : List Nat) (size : Nat), ∀ p ∈ decodeReads payload size,
      p.2 = min 1024 (size - p.1)) ∧
    (∀ (payload : List Nat) (size : Nat) (pcm : List Int) (reads : List (Nat × Nat)),
      decodeLoop muLaw payload size size 0 [] [] = DecodeResult.ok pcm reads →
      pcm.length = size) ∧
    (∀ (file extra : List Nat) (hdr : ContainerHeader),
      parseHeader file = Except.ok hdr → hdr.offset + hdr.size ≤ file.length →
      loadAuFile (file ++ extra) = loadAuFile file) := by
  refine ⟨?_, ?_, ?_⟩
  · intro payload size p hp
    exact (decodeLoop_reads_inv muLaw payload size size 0 [] [] (by simp) p hp).2.2
  · intro payload size pcm reads heq
    have := decodeLoop_ok_length muLaw payload size size 0 [] [] pcm reads heq
      (Nat.zero_le _)
    simpa using this
  · intro file extra hdr hparse hlen
    have h24 := parseHeader_ok_length file hdr hparse
    have hoff : hdr.offset ≤ file.length := by omega
    have hdropapp : (file ++ extra).drop hdr.offset = file.drop hdr.offset ++ extra :=
      List.drop_append_of_le_length hoff
    obtain ⟨t1, ht1⟩ := decodeLoop_ok_of_enough muLaw (file.drop hdr.offset) hdr.size
      hdr.size 0 [] [] (by rw [List.length_drop]; omega) (Nat.zero_le _) (by omega)
    obtain ⟨t2, ht2⟩ := decodeLoop_ok_of_enough muLaw (file.drop hdr.offset ++ extra) hdr.size
      hdr.size 0 [] [] (by rw [List.length_append, List.length_drop]; omega)
      (Nat.zero_le _) (by omega)
    have htake : ((file.drop hdr.offset ++ extra).drop 0).take (hdr.size - 0)
        = ((file.drop hdr.offset).drop 0).take (hdr.size - 0) := by
      simp only [List.drop_zero, Nat.sub_zero]
      exact List.take_append_of_le_length (by rw [List.length_drop]; omega)
    rw [htake] at ht2
    simp only [loadAuFile, parseHeader_append file extra h24, hparse, hdropapp, ht1, ht2]

/-- Witness for C9: the three parts applied to the concrete scenario file —
its single read request, its exact output length, and its insensitivity to
three appended junk bytes. -/
theorem c9_payload_frame_witness :
    ((0, 4) : Nat × Nat).2 = min 1024 (4 - ((0, 4) : Nat × Nat).1) ∧
    [muLaw 0xFF, muLaw 0x7F, muLaw 0x00, muLaw 0x80].length = 4 ∧
    loadAuFile (demoFile ++ [1, 2, 3]) = loadAuFile demoFile :=
  ⟨c9_payload_frame.1 [0xFF, 0x7F, 0x00, 0x80] 4 (0, 4) (by decide),
   c9_payload_frame.2.1 [0xFF, 0x7F, 0x00, 0x80] 4
     [muLaw 0xFF, muLaw 0x7F, muLaw 0x00, muLaw 0x80] [(0, 4)] (by decide),
   c9_payload_frame.2.2 demoFile [1, 2, 3] demoHeader (by decide) (by decide)⟩

/-- C10: a valid header with `dataSize = 0` decodes successfully to an empty
PCM buffer, the decode loop issues no read at all, and no truncation error is
raised even when the file ends right after the header. -/
theorem c10_empty_payload (file : List Nat) (hdr : ContainerHeader)
    (hparse : parseHeader file = Except.ok hdr) (hsize : hdr.size = 0) :
    loadAuFile file = Except.ok [] ∧ decodeReads (file.drop hdr.offset) hdr.size = [] := by
  have hloop : decodeLoop muLaw (file.drop hdr.offset) 0 0 0 [] [] =
      DecodeResult.ok [] [] := by
    rw [decodeLoop]
    simp
  constructor
  · simp only [loadAuFile, hparse, hsize, hloop]
  · simp only [decodeReads, hsize, hloop, DecodeResult.requests]

/-- The concrete zero-size test file: a valid header declaring `size = 0`
with nothing after it. -/
def emptyPayloadFile : List Nat :=
  [0x2e, 0x73, 0x6e, 0x64, 0, 0, 0, 24, 0, 0, 0, 0, 0, 0, 0, 1,
   0, 0, 0x1f, 0x40, 0, 0, 0, 1]

/-- Witness for C10: the theorem applied to a 24-byte file that is all
header, with a declared data size of zero. -/
theorem c10_empty_payload_witness :
    loadAuFile emptyPayloadFile = Except.ok [] ∧
    decodeReads (emptyPayloadFile.drop 24) 0 = [] :=
  c10_empty_payload emptyPayloadFile ⟨0x2e736e64, 24, 0, 1, 8000, 1⟩ (by decide) (by decide)

/-- The bit-inverted byte `u = (~i) & 0xFF` from which the table entry for
`i` is computed. -/
def uOf (i : Nat) : Nat := 255 - i % 256

/-- Magnitude of the µ-law expansion as a function of the low seven bits of
`u` (exponent in bits 4–6, mantissa in bits 0–3). -/
def muLawMag (v : Nat) : Nat :=
  (((v &&& 0x0F) <<< 3) + 0x84) <<< ((v >>> 4) &&& 0x07) - 0x84

/-- The magnitude function grows strictly from each magnitude code to the
next. -/
lemma muLawMag_step : ∀ v, v < 127 → muLawMag v < muLawMag (v + 1) := by decide

/-- The magnitude function is strictly monotone on magnitude codes 0..127. -/
lemma muLawMag_mono : ∀ b, b ≤ 127 → ∀ a, a < b → muLawMag a < muLawMag b := by
  intro b
  induction b with
  | zero =>
      intro _ a ha
      omega
  | succ n ih =>
      intro hb a ha
      rcases (Nat.lt_succ_iff.mp ha).lt_or_eq with h | h
      · exact lt_trans (ih (by omega) a h) (muLawMag_step n (by omega))
      · subst h
        exact muLawMag_step a (by omega)

/-- The absolute value of each table entry is the magnitude of its low seven
`u` bits. -/
lemma muLaw_natAbs : ∀ i, i < 256 → (muLaw i).natAbs = muLawMag (uOf i &&& 0x7F) := by
  decide

/-- Table lookups within 0..255 evaluate to the expansion function. -/
lemma muLawTable_getD : ∀ i, i < 256 → muLawTable.getD i 0 = muLaw i := by decide

/-- C5: the decode table is antisymmetric under flipping the stored sign bit
— `table[i xor 0x80] = -table[i]` — and strictly monotone in magnitude: for
equal sign bits of `u = (~i) & 0xFF`, a strictly smaller magnitude code
`u & 0x7F` gives a strictly smaller `|table[i]|`. -/
theorem c5_symmetry_monotonicity :
    (∀ i : Fin 256, muLawTable.getD (i.val ^^^ 0x80) 0 = - muLawTable.getD i.val 0) ∧
    (∀ i j : Nat, i < 256 → j < 256 → uOf i &&& 0x80 = uOf j &&& 0x80 →
      uOf i &&& 0x7F < uOf j &&& 0x7F →
      (muLawTable.getD i 0).natAbs < (muLawTable.getD j 0).natAbs) := by
  constructor
  · decide
  · intro i j hi hj _ hmag
    rw [muLawTable_getD i hi, muLawTable_getD j hj, muLaw_natAbs i hi, muLaw_natAbs j hj]
    exact muLawMag_mono (uOf j &&& 0x7F) (le_trans Nat.and_le_right (by norm_num)) _ hmag

/-- Witness for C5: sign-flip symmetry at index 0, and strict magnitude
growth from index 255 (magnitude code 0) to index 254 (magnitude code 1). -/
theorem c5_symmetry_monotonicity_witness :
    muLawTable.getD (0 ^^^ 0x80) 0 = - muLawTable.getD 0 0 ∧
    (muLawTable.getD 255 0).natAbs < (muLawTable.getD 254 0).natAbs :=
  ⟨c5_symmetry_monotonicity.1 ⟨0, by decide⟩,
   c5_symmetry_monotonicity.2 255 254 (by decide) (by decide) (by decide) (by decide)⟩

/-- Counterexample to C6: decoding the spec's own 4-byte scenario issues a
single read request of 4 bytes, not 1024 — the loop requests
`min(1024, size - i)` bytes, so a request is smaller than 1024 whenever fewer
than 1024 bytes remain. -/
theorem c6_counterexample :
    decodeReads [0xFF, 0x7F, 0x00, 0x80] 4 = [(0, 4)] ∧ (4 : Nat) ≠ 1024 := by
  constructor
  · decide
  · decide

/-- C6 (amended): the streaming decoder reads the payload in chunks of at
most 1024 bytes, never all at once — every read request issued during payload
decoding is for exactly `min 1024 (dataSize - bytes consumed)` bytes, hence
between 1 and 1024, and it is exactly 1024 whenever at least 1024 bytes
remain to decode. -/
theorem c6_chunked_reads (payload : List Nat) (size : Nat) :
    ∀ p ∈ decodeReads payload size,
      p.2 = min 1024 (size - p.1) ∧ 1 ≤ p.2 ∧ p.2 ≤ 1024 ∧
        (1024 ≤ size - p.1 → p.2 = 1024) := by
  intro p hp
  obtain ⟨h1, h2, h3⟩ := decodeLoop_reads_inv muLaw payload size size 0 [] [] (by simp) p hp
  refine ⟨h3, h1, h2, fun hrem => ?_⟩
  omega

/-- Witness for the amended C6: the single request of the 4-byte scenario run
is `min 1024 (4 - 0) = 4` bytes, between 1 and 1024, with the 1024-byte case
vacuous since fewer than 1024 bytes remain. -/
theorem c6_chunked_reads_witness :
    ((0, 4) : Nat × Nat).2 = min 1024 (4 - ((0, 4) : Nat × Nat).1) ∧
    1 ≤ ((0, 4) : Nat × Nat).2 ∧ ((0, 4) : Nat × Nat).2 ≤ 1024 ∧
    (1024 ≤ 4 - ((0, 4) : Nat × Nat).1 → ((0, 4) : Nat × Nat).2 = 1024) :=
  c6_chunked_reads [0xFF, 0x7F, 0x00, 0x80] 4 (0, 4) (by decide)

/-- The two audio clips of `run` (code.py lines 170–175): the decoded AU
buffer and the external 16-bit WAV file. -/
inductive AudioClip where
  | au
  | wav
deriving Repr, DecidableEq

/-- One observable step of the playback loop body: a console message, a
blocking `time.sleep`, or a non-blocking `audio.play` start call. -/
inductive PlayAction where
  | message (txt : String)
  | sleep (seconds : ℚ)
  | play (clip : AudioClip)
deriving Repr, DecidableEq

/-- Computed clip play time `play_time = len(pcm) / 8000` (code.py line 172). -/
def playTime (pcmLen : Nat) : ℚ := pcmLen / 8000

/-- Modelled from the spec (§3 ClipDescriptor): `durationSeconds =
sampleCount / sampleRate`, at the fixed 8000 Hz rate. -/
def clipDuration (sampleCount : Nat) : ℚ := sampleCount / 8000

/-- The body of the infinite `while True` playback loop (code.py lines
179–187), in program order: banner print, 0.5 s settle sleep, AU start,
`play_time + 1` sleep, banner print, 0.5 s settle sleep, WAV start,
`play_time + 1` sleep.  Both long sleeps use the AU clip's `play_time`. -/
def loopBody (pt : ℚ) : List PlayAction :=
  [PlayAction.message "Playing 8-bit AU ...", PlayAction.sleep (1 / 2),
   PlayAction.play AudioClip.au, PlayAction.sleep (pt + 1),
   PlayAction.message "Playing 16-bit WAV ...", PlayAction.sleep (1 / 2),
   PlayAction.play AudioClip.wav, PlayAction.sleep (pt + 1)]

/-- Seconds an action blocks for: the duration of a sleep, zero otherwise. -/
def sleepSeconds : PlayAction → ℚ
  | PlayAction.sleep t => t
  | _ => 0

/-- Whether an action is a start-playback call. -/
def isPlay : PlayAction → Bool
  | PlayAction.play _ => true
  | _ => false

/-- Total blocking time after the action at position `k` of the cyclically
repeated loop body, up to the next start-playback call. -/
def waitAfterStart (body : List PlayAction) (k : Nat) : ℚ :=
  (((body.drop (k + 1) ++ body).takeWhile fun a => ! isPlay a).map sleepSeconds).sum

/-- Counterexample to C7: with a decoded AU clip of 8000 samples
(`play_time = 1`) and a WAV clip of 24000 samples (duration 3 s), the
controller blocks only 5/2 s between starting the WAV clip (position 6 of the
loop body) and the next start call — less than that clip's
`durationSeconds + 1`, because both sleeps use the AU clip's play time. -/
theorem c7_counterexample :
    (loopBody (playTime 8000)).getD 6 (PlayAction.sleep 0) = PlayAction.play AudioClip.wav ∧
    waitAfterStart (loopBody (playTime 8000)) 6 < clipDuration 24000 + 1 := by
  constructor
  · rfl
  · norm_num [waitAfterStart, loopBody, playTime, clipDuration, isPlay, sleepSeconds,
      List.takeWhile]

/-- C7 (amended): after each start call the controller blocks for the DECODED
clip's `play_time + 1.5` seconds before the next start call — for the decoded
clip of `n` samples this is at least its duration `n/8000` plus the ≈1 s
guard, but the wait after the WAV start also uses the AU clip's play time
rather than the WAV clip's own duration. -/
theorem c7_playback_waits (n : Nat) :
    waitAfterStart (loopBody (playTime n)) 2 = playTime n + 3 / 2 ∧
    waitAfterStart (loopBody (playTime n)) 6 = playTime n + 3 / 2 ∧
    clipDuration n + 1 ≤ waitAfterStart (loopBody (playTime n)) 2 := by
  refine ⟨?_, ?_, ?_⟩
  · norm_num [waitAfterStart, loopBody, isPlay, sleepSeconds, List.takeWhile]
    ring
  · norm_num [waitAfterStart, loopBody, isPlay, sleepSeconds, List.takeWhile]
    ring
  · norm_num [waitAfterStart, loopBody, isPlay, sleepSeconds, clipDuration, playTime,
      List.takeWhile]

end AuPlayer
